import Mathlib

set_option maxHeartbeats 1000000
set_option maxRecDepth 20000

namespace CityLearn

/-! Shallow embedding of the CityLearn fork under verification: the SAC agent's
reward shaping and replay memory (agent_SAC.py), the EV charger energy-transfer
step (citylearn/electric_vehicle_charger.py) and the EV state-of-charge
adjustment (citylearn/electric_vehicle.py).  Python floats are modelled as
rationals, except for the policy squashing math which needs the real tanh. -/

/-- Model of numpy clip applied to a scalar: lo when below lo, hi when above hi,
the value itself otherwise. -/
def npClip (x lo hi : ℚ) : ℚ := if x < lo then lo else if hi < x then hi else x

/-- Model of Python int() applied to a float: truncation toward zero. -/
def pyIntTrunc (q : ℚ) : ℤ := if q < 0 then ⌈q⌉ else ⌊q⌋

/-- Model of numpy ndarray.mean: sum divided by length (an empty array gives 0
here; the Python code never takes the mean of an empty action array). -/
def listMean (l : List ℚ) : ℚ := l.sum / l.length

/-- Maximum of a list of rationals in WithBot, bottom for the empty list. -/
def listSup (l : List ℚ) : WithBot ℚ := l.foldr (fun a b => max (a : WithBot ℚ) b) ⊥

/-- Model of Python max over a list of floats; the Python code only applies it
to nonempty lists, where this is the true maximum. -/
def pyMax (l : List ℚ) : ℚ := (listSup l).unbot' 0

/-- Model of a Python list element assignment day_list i = v, including the
negative-index-from-the-end convention. -/
def pyListSet (l : List ℚ) (i : ℤ) (v : ℚ) : List ℚ :=
  if 0 ≤ i then l.set i.toNat v else l.set (l.length - (-i).toNat) v

/-- One stored experience tuple (state, action, reward, next_state, done),
as pushed by SAC.add_to_buffer. -/
structure Transition (S A : Type) where
  state : S
  action : A
  reward : ℚ
  next_state : S
  done : Bool
deriving DecidableEq

/-- Embedding of the ReplayMemory class of agent_SAC.py: a capacity, a slot
list and a write cursor.  Slots hold Option values because the Python push
appends a None placeholder before overwriting it. -/
structure ReplayMemory (α : Type) where
  capacity : ℕ
  buffer : List (Option α)
  position : ℕ
deriving DecidableEq

/-- Embedding of ReplayMemory.__init__: empty buffer, cursor at zero. -/
def ReplayMemory.init (α : Type) (capacity : ℕ) : ReplayMemory α :=
  { capacity := capacity, buffer := [], position := 0 }

/-- Embedding of ReplayMemory.push: while below capacity append a fresh (None)
slot, write the transition at the cursor, advance the cursor modulo
capacity. -/
def ReplayMemory.push {α : Type} (m : ReplayMemory α) (x : α) : ReplayMemory α :=
  let buf := if m.buffer.length < m.capacity then m.buffer ++ [none] else m.buffer
  { capacity := m.capacity
    buffer := buf.set m.position (some x)
    position := (m.position + 1) % m.capacity }

/-- Sequence of pushes, oldest first. -/
def ReplayMemory.pushAll {α : Type} (m : ReplayMemory α) (xs : List α) : ReplayMemory α :=
  xs.foldl ReplayMemory.push m

/-- Stored transitions read in chronological order: the ring read starting at
the write cursor, dropping empty slots. -/
def ReplayMemory.stored {α : Type} (m : ReplayMemory α) : List α :=
  (m.buffer.drop m.position ++ m.buffer.take m.position).filterMap id

lemma pushAll_concat {α : Type} (m : ReplayMemory α) (xs : List α) (x : α) :
    m.pushAll (xs ++ [x]) = (m.pushAll xs).push x :=
  List.foldl_concat _ _ _ _

lemma set_append_length {α : Type} (l : List α) (a b : α) :
    (l ++ [a]).set l.length b = l ++ [b] := by
  induction l with
  | nil => rfl
  | cons y ys ih => simp [List.set, ih]

/-- Invariant of the replay ring relating a memory to the full push history xs:
fixed capacity, slot count min (length xs) C, cursor at length xs mod C, every
slot filled, and chronological content equal to the most recent C pushes. -/
def ReplayInv {α : Type} (C : ℕ) (m : ReplayMemory α) (xs : List α) : Prop :=
  m.capacity = C ∧
  m.buffer.length = min xs.length C ∧
  m.position = xs.length % C ∧
  (∀ o ∈ m.buffer, o.isSome = true) ∧
  m.stored = xs.drop (xs.length - C)

lemma replayInv_push {α : Type} {C : ℕ} (hC : 0 < C) {m : ReplayMemory α}
    {xs : List α} (x : α) (h : ReplayInv C m xs) :
    ReplayInv C (m.push x) (xs ++ [x]) := by
  obtain ⟨ihcap, ihlen, ihpos, ihsome, ihstored⟩ := h
  by_cases hn : xs.length < C
  · -- still below capacity: the push appends at the end
    have hlen : m.buffer.length = xs.length := by
      rw [ihlen]; exact Nat.min_eq_left (Nat.le_of_lt hn)
    have hpos : m.position = xs.length := by
      rw [ihpos]; exact Nat.mod_eq_of_lt hn
    have hbuf : (ReplayMemory.push m x).buffer = m.buffer ++ [some x] := by
      simp only [ReplayMemory.push, hlen, ihcap, hn, if_pos]
      rw [hpos, ← hlen, set_append_length]
    have hstored_m : m.buffer.filterMap id = xs := by
      have h0 : xs.length - C = 0 := Nat.sub_eq_zero_of_le (Nat.le_of_lt hn)
      have h1 := ihstored
      rw [h0, List.drop_zero] at h1
      rw [ReplayMemory.stored, hpos, ← hlen] at h1
      simpa using h1
    have hpos' : (ReplayMemory.push m x).position = (xs.length + 1) % C := by
      simp only [ReplayMemory.push, ihcap, hpos]
    refine ⟨by simp only [ReplayMemory.push]; exact ihcap, ?_, ?_, ?_, ?_⟩
    · rw [hbuf]
      simp only [List.length_append, List.length_singleton, hlen]
      omega
    · rw [hpos']; simp
    · intro o ho
      rw [hbuf] at ho
      rcases List.mem_append.1 ho with h | h
      · exact ihsome o h
      · simp only [List.mem_singleton] at h; subst h; rfl
    · have hsub : xs.length + 1 - C = 0 := by omega
      have hlen' : (m.buffer ++ [some x]).length = xs.length + 1 := by
        rw [List.length_append, List.length_singleton, hlen]
      rw [ReplayMemory.stored, hbuf, hpos']
      rw [List.length_append, List.length_singleton, hsub, List.drop_zero]
      by_cases hfull : xs.length + 1 < C
      · rw [Nat.mod_eq_of_lt hfull]
        rw [List.drop_eq_nil_of_le (le_of_eq hlen'),
          List.take_of_length_le (le_of_eq hlen')]
        simp [List.filterMap_append, hstored_m]
      · have hfin : xs.length + 1 = C := by omega
        rw [hfin, Nat.mod_self, List.drop_zero, List.take_zero, List.append_nil]
        simp [List.filterMap_append, hstored_m]
  · -- at capacity: the push overwrites the slot at the cursor
    have hlen : m.buffer.length = C := by
      rw [ihlen]; exact Nat.min_eq_right (Nat.le_of_not_lt hn)
    have hple : m.position < C := by rw [ihpos]; exact Nat.mod_lt _ hC
    have hplen : m.position < m.buffer.length := by rw [hlen]; exact hple
    have hbuf : (ReplayMemory.push m x).buffer = m.buffer.set m.position (some x) := by
      simp only [ReplayMemory.push, hlen, ihcap, lt_irrefl, if_false]
    have hsetdec : m.buffer.set m.position (some x)
        = m.buffer.take m.position ++ some x :: m.buffer.drop (m.position + 1) := by
      rw [List.set_eq_take_append_cons_drop]; rw [if_pos hplen]
    obtain ⟨y, hy⟩ : ∃ y, m.buffer.getD m.position none = some y := by
      have hmem : m.buffer.getD m.position none ∈ m.buffer := by
        rw [List.getD_eq_getElem _ _ hplen]
        exact List.getElem_mem hplen
      exact Option.isSome_iff_exists.1 (ihsome _ hmem)
    have hdropdec : m.buffer.drop m.position
        = some y :: m.buffer.drop (m.position + 1) := by
      rw [List.drop_eq_getElem_cons hplen, ← List.getD_eq_getElem m.buffer none hplen, hy]
    have htail : (m.buffer.drop (m.position + 1) ++ m.buffer.take m.position).filterMap id
        = (xs.drop (xs.length - C)).tail := by
      have h3 := ihstored
      rw [ReplayMemory.stored, hdropdec] at h3
      rw [← h3]
      simp
    have hpos' : (ReplayMemory.push m x).position = (m.position + 1) % C := by
      simp only [ReplayMemory.push, ihcap]
    refine ⟨by simp only [ReplayMemory.push]; exact ihcap, ?_, ?_, ?_, ?_⟩
    · rw [hbuf, List.length_set, hlen]
      have hmin : min (xs.length + 1) C = C := Nat.min_eq_right (by omega)
      simp [hmin]
    · rw [hpos', ihpos, Nat.mod_add_mod]
      simp
    · intro o ho
      rw [hbuf] at ho
      rcases List.mem_or_eq_of_mem_set ho with h | h
      · exact ihsome o h
      · subst h; rfl
    · have hgoalidx : xs.length + 1 - C = (xs.length - C) + 1 := by omega
      have hdropgoal : (xs ++ [x]).drop (xs.length + 1 - C)
          = (xs.drop (xs.length - C)).tail ++ [x] := by
        rw [hgoalidx, List.drop_append_of_le_length (by omega), List.tail_drop]
      rw [ReplayMemory.stored, hbuf, hpos', hsetdec]
      rw [List.length_append, List.length_singleton, hdropgoal]
      have htake_len : (m.buffer.take m.position).length = m.position :=
        List.length_take_of_le (Nat.le_of_lt hplen)
      have hfront_len : (m.buffer.take m.position ++ [some x]).length = m.position + 1 := by
        rw [List.length_append, List.length_singleton, htake_len]
      have hassoc : m.buffer.take m.position ++ some x :: m.buffer.drop (m.position + 1)
          = (m.buffer.take m.position ++ [some x]) ++ m.buffer.drop (m.position + 1) := by
        simp
      by_cases hwrap : m.position + 1 < C
      · rw [Nat.mod_eq_of_lt hwrap, hassoc, List.drop_left' hfront_len,
          List.take_left' hfront_len]
        rw [← htail]
        rw [← List.append_assoc, List.filterMap_append]
        simp
      · have hfin : m.position + 1 = C := by omega
        have hdropnil : m.buffer.drop (m.position + 1) = [] :=
          List.drop_eq_nil_of_le (by rw [hlen, hfin])
        have hpos0 : (m.position + 1) % C = 0 := by rw [hfin]; exact Nat.mod_self C
        rw [hpos0, List.drop_zero, List.take_zero, List.append_nil, hdropnil]
        rw [hdropnil] at htail
        rw [List.nil_append] at htail
        simp [List.filterMap_append, htail]

/-- Induction of the invariant over a full push history. -/
lemma pushAll_init_spec {α : Type} (C : ℕ) (hC : 0 < C) (xs : List α) :
    ReplayInv C ((ReplayMemory.init α C).pushAll xs) xs := by
  induction xs using List.reverseRecOn with
  | nil =>
      refine ⟨rfl, by simp [ReplayMemory.pushAll, ReplayMemory.init], by
        simp [ReplayMemory.pushAll, ReplayMemory.init], by
        simp [ReplayMemory.pushAll, ReplayMemory.init], by
        simp [ReplayMemory.pushAll, ReplayMemory.init, ReplayMemory.stored]⟩
  | append_singleton xs x ih =>
      rw [pushAll_concat]
      exact replayInv_push hC x ih

/-- Modelled from the spec: Python's random.sample draws distinct elements
without replacement.  The randomness is an oracle stream giving one natural
number per draw, reduced modulo the number of remaining candidates; the chosen
candidate is removed from the pool before the next draw. -/
def drawIdx : ℕ → List ℕ → (ℕ → ℕ) → List ℕ
  | 0, _, _ => []
  | _ + 1, [], _ => []
  | k + 1, p :: ps, rand =>
      let pool := p :: ps
      let chosen := pool.getD (rand 0 % pool.length) 0
      chosen :: drawIdx k (pool.erase chosen) (fun j => rand (j + 1))

lemma drawIdx_spec : ∀ (k : ℕ) (pool : List ℕ) (rand : ℕ → ℕ), pool.Nodup →
    (drawIdx k pool rand).Nodup ∧ (∀ i ∈ drawIdx k pool rand, i ∈ pool) ∧
    (drawIdx k pool rand).length = min k pool.length := by
  intro k
  induction k with
  | zero => intro pool rand _; simp [drawIdx]
  | succ k ih =>
      intro pool rand h
      match pool with
      | [] => simp [drawIdx]
      | p :: ps =>
        have hlenpos : 0 < (p :: ps).length := by simp
        have hidx : rand 0 % (p :: ps).length < (p :: ps).length :=
          Nat.mod_lt _ hlenpos
        have hchosen_mem : (p :: ps).getD (rand 0 % (p :: ps).length) 0 ∈ (p :: ps) := by
          rw [List.getD_eq_getElem _ _ hidx]
          exact List.getElem_mem hidx
        have herase_nodup : ((p :: ps).erase ((p :: ps).getD (rand 0 % (p :: ps).length) 0)).Nodup :=
          List.Nodup.erase _ h
        obtain ⟨hnd, hsub, hlen⟩ :=
          ih ((p :: ps).erase ((p :: ps).getD (rand 0 % (p :: ps).length) 0))
            (fun j => rand (j + 1)) herase_nodup
        refine ⟨?_, ?_, ?_⟩
        · rw [drawIdx]
          refine List.Nodup.cons ?_ hnd
          intro hmem
          have h4 := hsub _ hmem
          rw [List.Nodup.mem_erase_iff h] at h4
          exact h4.1 rfl
        · rw [drawIdx]
          intro i hi
          rcases List.mem_cons.1 hi with h5 | h5
          · subst h5; exact hchosen_mem
          · exact List.mem_of_mem_erase (hsub _ h5)
        · have hlen2 : ((p :: ps).erase ((p :: ps).getD (rand 0 % (p :: ps).length) 0)).length
              = ps.length := by
            rw [List.length_erase_of_mem hchosen_mem]; simp
          rw [drawIdx]
          show ((p :: ps).getD (rand 0 % (p :: ps).length) 0 ::
              drawIdx k ((p :: ps).erase ((p :: ps).getD (rand 0 % (p :: ps).length) 0))
                (fun j => rand (j + 1))).length = min (k + 1) (p :: ps).length
          rw [List.length_cons, hlen, hlen2]
          simp only [List.length_cons]
          omega

/-- Embedding of ReplayMemory.sample: Python's random.sample raises when the
batch size exceeds the population, otherwise batch_size distinct slots are
drawn without replacement; the five parallel stacked sequences (states,
actions, rewards, next states, done masks) come from unpacking the transpose
of the batch, which raises (a second error path) when the batch is empty, as
it is at batch_size 0. -/
def ReplayMemory.sample {S A : Type} (m : ReplayMemory (Transition S A)) (batch_size : ℕ)
    (rand : ℕ → ℕ) :
    Except String (List S × List A × List ℚ × List S × List Bool) :=
  if m.buffer.length < batch_size then
    Except.error "Sample larger than population or is negative"
  else
    let idxs := drawIdx batch_size (List.range m.buffer.length) rand
    let batch := idxs.filterMap (fun i => m.buffer.getD i none)
    if batch.isEmpty then
      Except.error "not enough values to unpack"
    else
      Except.ok (batch.map Transition.state, batch.map Transition.action,
        batch.map Transition.reward, batch.map Transition.next_state,
        batch.map Transition.done)

lemma drawIdx_zero (pool : List ℕ) (rand : ℕ → ℕ) : drawIdx 0 pool rand = [] := by
  cases pool <;> rfl

lemma filterMap_getD_of_all_some {α : Type} (buf : List (Option α))
    (hsome : ∀ o ∈ buf, o.isSome = true) :
    ∀ idxs : List ℕ, (∀ i ∈ idxs, i < buf.length) →
    ∃ ts : List α,
      List.Forall₂ (fun i t => i < buf.length ∧ buf.getD i none = some t) idxs ts ∧
      idxs.filterMap (fun i => buf.getD i none) = ts := by
  intro idxs
  induction idxs with
  | nil => intro _; exact ⟨[], List.Forall₂.nil, rfl⟩
  | cons i is ih =>
      intro hbound
      have hi : i < buf.length := hbound i (List.mem_cons_self i is)
      obtain ⟨y, hgd⟩ : ∃ y, buf.getD i none = some y := by
        have hmem : buf.getD i none ∈ buf := by
          rw [List.getD_eq_getElem _ _ hi]
          exact List.getElem_mem hi
        exact Option.isSome_iff_exists.1 (hsome _ hmem)
      obtain ⟨ts, hfa, hfm⟩ := ih (fun j hj => hbound j (List.mem_cons_of_mem i hj))
      refine ⟨y :: ts, List.Forall₂.cons ⟨hi, hgd⟩ hfa, ?_⟩
      rw [List.filterMap_cons, hgd, hfm]

/-- C4 (amended): sample(batch_size) fails with an error whenever batch_size
exceeds the stored count; it also fails at batch_size 0, where unpacking the
five stacked sequences from the empty batch raises; for any batch_size between
1 and the stored count it returns batch_size transitions drawn at distinct
slot indices without replacement, as five parallel stacked sequences. -/
theorem C4_sample_distinct_or_error {S A : Type} (C : ℕ) (hC : 0 < C)
    (xs : List (Transition S A)) (batch_size : ℕ) (rand : ℕ → ℕ)
    (m : ReplayMemory (Transition S A))
    (hm : m = (ReplayMemory.init (Transition S A) C).pushAll xs) :
    (m.buffer.length < batch_size →
      m.sample batch_size rand
        = Except.error "Sample larger than population or is negative") ∧
    (batch_size = 0 →
      m.sample batch_size rand = Except.error "not enough values to unpack") ∧
    (1 ≤ batch_size → batch_size ≤ m.buffer.length →
      ∃ idxs ts, idxs.Nodup ∧ idxs.length = batch_size ∧
        List.Forall₂ (fun i t => i < m.buffer.length ∧ m.buffer.getD i none = some t) idxs ts ∧
        m.sample batch_size rand
          = Except.ok (ts.map Transition.state, ts.map Transition.action,
              ts.map Transition.reward, ts.map Transition.next_state,
              ts.map Transition.done)) := by
  refine ⟨?_, ?_, ?_⟩
  · intro hlt
    rw [ReplayMemory.sample, if_pos hlt]
  · intro h0
    subst h0
    rw [ReplayMemory.sample, if_neg (Nat.not_lt_zero _)]
    simp [drawIdx_zero]
  · intro h1 hle
    obtain ⟨-, -, -, hsome, -⟩ := pushAll_init_spec C hC xs
    rw [← hm] at hsome
    obtain ⟨hnd, hsub, hlen⟩ :=
      drawIdx_spec batch_size (List.range m.buffer.length) rand (List.nodup_range _)
    have hbound : ∀ i ∈ drawIdx batch_size (List.range m.buffer.length) rand,
        i < m.buffer.length := by
      intro i hi
      exact List.mem_range.1 (hsub i hi)
    obtain ⟨ts, hfa, hfm⟩ := filterMap_getD_of_all_some m.buffer hsome _ hbound
    have hlen' : (drawIdx batch_size (List.range m.buffer.length) rand).length = batch_size := by
      rw [hlen, List.length_range]
      exact Nat.min_eq_left hle
    have hts : ts.length = batch_size := by
      rw [← List.Forall₂.length_eq hfa, hlen']
    have hne : ts.isEmpty = false := by
      cases ts with
      | nil => rw [List.length_nil] at hts; omega
      | cons t u => rfl
    refine ⟨drawIdx batch_size (List.range m.buffer.length) rand, ts, hnd, hlen', hfa, ?_⟩
    rw [ReplayMemory.sample, if_neg (by omega)]
    simp only [hfm, hne]
    rw [if_neg (by simp)]

/-- Concrete push history used to demonstrate sampling. -/
def sampleDemoHistory : List (Transition ℚ ℚ) :=
  [⟨1, 1, 1, 1, false⟩, ⟨2, 2, 2, 2, false⟩, ⟨3, 3, 3, 3, true⟩]

/-- Concrete replay memory used to demonstrate sampling: capacity 2, three
pushes, hence two stored transitions. -/
def sampleDemoMem : ReplayMemory (Transition ℚ ℚ) :=
  (ReplayMemory.init (Transition ℚ ℚ) 2).pushAll sampleDemoHistory

/-- C4 counterexample: on the demo memory holding 2 transitions, batch size 0
does not exceed the stored count, yet sampling fails (the empty batch cannot
be unpacked into the five stacked sequences) instead of returning zero
transitions successfully as the original claim's success branch asserts. -/
theorem C4_sample_zero_batch_counterexample :
    (0 : ℕ) ≤ sampleDemoMem.buffer.length ∧
    sampleDemoMem.sample 0 (fun _ => 0) = Except.error "not enough values to unpack" :=
  ⟨Nat.zero_le _, by rfl⟩

/-- C4 witness: on the capacity-2 demo memory holding 2 transitions, a batch of
3 errors, a batch of 0 errors on unpacking, and a batch of 1 succeeds with a
distinct in-range index. -/
theorem C4_sample_distinct_or_error_witness :
    (sampleDemoMem.sample 3 (fun _ => 0)
      = Except.error "Sample larger than population or is negative") ∧
    (sampleDemoMem.sample 0 (fun _ => 0)
      = Except.error "not enough values to unpack") ∧
    (∃ idxs ts, idxs.Nodup ∧ idxs.length = 1 ∧
      List.Forall₂ (fun i t => i < sampleDemoMem.buffer.length ∧
        sampleDemoMem.buffer.getD i none = some t) idxs ts ∧
      sampleDemoMem.sample 1 (fun _ => 0)
        = Except.ok (ts.map Transition.state, ts.map Transition.action,
            ts.map Transition.reward, ts.map Transition.next_state,
            ts.map Transition.done)) :=
  ⟨(C4_sample_distinct_or_error 2 (by decide) sampleDemoHistory 3 (fun _ => 0)
      sampleDemoMem rfl).1 (by decide),
   (C4_sample_distinct_or_error 2 (by decide) sampleDemoHistory 0 (fun _ => 0)
      sampleDemoMem rfl).2.1 rfl,
   (C4_sample_distinct_or_error 2 (by decide) sampleDemoHistory 1 (fun _ => 0)
      sampleDemoMem rfl).2.2 (by decide) (by decide)⟩

/-- C3: after n pushes into a fresh ReplayMemory of positive capacity C the
buffer length is min n C, the write cursor sits at n mod C, and the stored
content read in chronological order is exactly the C most recent pushes. -/
theorem C3_replay_ring_semantics {α : Type} (C : ℕ) (hC : 0 < C) (xs : List α) :
    ((ReplayMemory.init α C).pushAll xs).buffer.length = min xs.length C ∧
    ((ReplayMemory.init α C).pushAll xs).position = xs.length % C ∧
    ((ReplayMemory.init α C).pushAll xs).stored = xs.drop (xs.length - C) := by
  obtain ⟨-, h1, h2, -, h3⟩ := pushAll_init_spec C hC xs
  exact ⟨h1, h2, h3⟩

/-- Reward shaping weight sw4 of SAC.__init__. -/
def sw4 : ℚ := 1/2

/-- Reward shaping weight sw5 of SAC.__init__. -/
def sw5 : ℚ := 1

/-- Reward shaping weight sw6 of SAC.__init__. -/
def sw6 : ℚ := -(1/2)

/-- Reward shaping weight sw7 of SAC.__init__. -/
def sw7 : ℚ := 2

/-- Embedding of the daily-peak block of SAC.add_to_buffer: at hour index 0
the maximum of the previous day's list is taken before the list is reset and
the current consumption recorded; at any other hour index the current
consumption is recorded first and the maximum taken after. -/
def peakStep (net : ℚ) (day_list : List ℚ) (hr_index : ℤ) : List ℚ × ℚ :=
  if hr_index = 0 then
    let max_peak := pyMax day_list
    let dl := pyListSet (List.replicate 24 0) hr_index net
    (dl, max_peak)
  else
    let dl := pyListSet day_list hr_index net
    (dl, pyMax dl)

/-- Inputs of one SAC.add_to_buffer call, together with the environment's
current net electricity consumption read inside the call. -/
structure BufInput where
  states : List ℚ
  actions : List ℚ
  rewards : ℚ
  next_states : List ℚ
  dones : Bool
  net : ℚ
deriving DecidableEq

/-- Hour observation of a call, Python int(states[2]). -/
def hourOf (inp : BufInput) : ℤ := pyIntTrunc (inp.states.getD 2 0)

/-- Result of one SAC.add_to_buffer call: updated replay memory and day list,
the five returned values, and the shaping intermediates they are built from. -/
structure AddResult where
  memory : ReplayMemory (Transition (List ℚ) (List ℚ))
  day_list : List ℚ
  max_peak : ℚ
  hour_bonus : ℚ
  penal : ℚ
  clipped : ℚ
  total : ℚ
  returns : ℚ × ℚ × ℚ × ℚ × ℚ
deriving DecidableEq

/-- Embedding of SAC.add_to_buffer of agent_SAC.py: clip the raw reward,
compute the action-inactivity penalty and the hour bonus and penalty from
states[2] and the action mean, run the daily-peak block, combine with the
sw4, sw5, sw6, sw7 weights, push the transition and return the components. -/
def add_to_buffer (day_list : List ℚ)
    (memory : ReplayMemory (Transition (List ℚ) (List ℚ))) (inp : BufInput) : AddResult :=
  let s2 := inp.states.getD 2 0
  let rewards := npClip (inp.rewards / 5) (-1) 1
  let penal :=
    (inp.actions.map (fun x => if ¬ (x < 1/1000 ∧ -(1/1000) < x) then (1 : ℚ) else -10)).sum
  let am := listMean inp.actions
  let night_charging_boost : ℚ :=
    if ((1 ≤ s2 ∧ s2 < 12) ∨ (22 ≤ s2 ∧ s2 ≤ 24)) ∧ 1/10 < am then 1
    else if ((1 ≤ s2 ∧ s2 < 8) ∨ (22 ≤ s2 ∧ s2 ≤ 24)) ∧ am < 0 then -1
    else 0
  let day_charging_pen : ℚ := if (12 ≤ s2 ∧ s2 < 20) ∧ 0 < am then -1 else 0
  let hr_pen := night_charging_boost + day_charging_pen
  let hr_index : ℤ := pyIntTrunc s2 - 1
  let pk := peakStep inp.net day_list hr_index
  let total_rewards := penal * sw4 + rewards * sw5 + pk.2 / 50 * sw6 + hr_pen * sw7
  let norm_rewards := total_rewards
  { memory := memory.push ⟨inp.states, inp.actions, norm_rewards, inp.next_states, inp.dones⟩
    day_list := pk.1
    max_peak := pk.2
    hour_bonus := hr_pen
    penal := penal
    clipped := rewards
    total := total_rewards
    returns := (total_rewards, rewards * sw5, penal * sw4, pk.2 / 50 * sw6, hr_pen * sw7) }

/-- Action-inactivity penalty as the specification words it: minus 10 for a
component of magnitude below 0.001, plus 1 otherwise, summed over components. -/
def specPenalty (actions : List ℚ) : ℚ :=
  (actions.map (fun x => if |x| < 1/1000 then (-10 : ℚ) else 1)).sum

/-- Clipped reward as the specification words it: the raw reward divided by 5,
then clipped into the interval from minus 1 to 1. -/
def specClippedReward (r : ℚ) : ℚ := max (-1) (min (r / 5) 1)

lemma penal_term_eq (x : ℚ) :
    (if ¬ (x < 1/1000 ∧ -(1/1000) < x) then (1 : ℚ) else -10)
      = (if |x| < 1/1000 then (-10 : ℚ) else 1) := by
  by_cases h : |x| < 1/1000
  · rw [if_pos h, if_neg]
    rw [abs_lt] at h
    exact fun hc => hc ⟨h.2, h.1⟩
  · rw [if_neg h, if_pos]
    rw [abs_lt] at h
    exact fun hc => h ⟨hc.2, hc.1⟩

lemma penal_eq (actions : List ℚ) :
    (actions.map (fun x => if ¬ (x < 1/1000 ∧ -(1/1000) < x) then (1 : ℚ) else -10)).sum
      = specPenalty actions := by
  unfold specPenalty
  congr 1
  exact List.map_congr_left (fun x _ => penal_term_eq x)

lemma clip_eq (r : ℚ) : npClip (r / 5) (-1) 1 = specClippedReward r := by
  unfold npClip specClippedReward
  split_ifs with h1 h2
  · rw [min_eq_left (by linarith), max_eq_left (by linarith)]
  · rw [min_eq_right (le_of_lt h2), max_eq_right (by norm_num)]
  · rw [min_eq_left (by linarith), max_eq_right (by linarith)]

/-- C1: each add_to_buffer call stores and returns the shaped reward
0.5 times the action-inactivity penalty, plus 1 times the clipped reward, plus
minus 0.5 times the tracked daily peak over 50, plus 2 times the hour bonus
and penalty. -/
theorem C1_shaped_reward_formula (day_list : List ℚ)
    (memory : ReplayMemory (Transition (List ℚ) (List ℚ))) (inp : BufInput) :
    (add_to_buffer day_list memory inp).total
      = (1/2) * specPenalty inp.actions + 1 * specClippedReward inp.rewards
        + (-(1/2)) * ((add_to_buffer day_list memory inp).max_peak / 50)
        + 2 * (add_to_buffer day_list memory inp).hour_bonus
    ∧ (add_to_buffer day_list memory inp).returns.1 = (add_to_buffer day_list memory inp).total
    ∧ (add_to_buffer day_list memory inp).memory
      = memory.push ⟨inp.states, inp.actions, (add_to_buffer day_list memory inp).total,
          inp.next_states, inp.dones⟩ := by
  refine ⟨?_, rfl, rfl⟩
  show (add_to_buffer day_list memory inp).total = _
  simp only [add_to_buffer]
  rw [penal_eq, clip_eq]
  unfold sw4 sw5 sw6 sw7
  ring

lemma max_bot_l (x : WithBot ℚ) : max ⊥ x = x := max_eq_right bot_le

lemma max_bot_r (x : WithBot ℚ) : max x ⊥ = x := max_eq_left bot_le

lemma listSup_cons (a : ℚ) (l : List ℚ) :
    listSup (a :: l) = max (a : WithBot ℚ) (listSup l) := rfl

lemma listSup_append (l₁ l₂ : List ℚ) :
    listSup (l₁ ++ l₂) = max (listSup l₁) (listSup l₂) := by
  induction l₁ with
  | nil => rw [List.nil_append]; exact (max_bot_l _).symm
  | cons a l ih =>
      rw [List.cons_append, listSup_cons, listSup_cons, ih, max_assoc]

lemma listSup_replicate_zero (n : ℕ) :
    listSup (List.replicate n (0 : ℚ)) = if n = 0 then ⊥ else ((0 : ℚ) : WithBot ℚ) := by
  induction n with
  | zero => rfl
  | succ k ih =>
      rw [List.replicate_succ, listSup_cons, ih]
      by_cases hk : k = 0
      · rw [if_pos hk, if_neg (Nat.succ_ne_zero k), max_bot_r]
      · rw [if_neg hk, if_neg (Nat.succ_ne_zero k), max_self]

/-- Maximum of the values recorded this day, zero-padded to the 24 slots of
the day list. -/
def padMax (vs : List ℚ) : ℚ := pyMax (vs ++ List.replicate (24 - vs.length) 0)

lemma pyMax_zero_pad (a b : ℕ) (vs : List ℚ) :
    pyMax (List.replicate a 0 ++ vs ++ List.replicate b 0)
      = pyMax (vs ++ List.replicate (a + b) 0) := by
  unfold pyMax
  rw [listSup_append, listSup_append, listSup_append,
    listSup_replicate_zero, listSup_replicate_zero, listSup_replicate_zero]
  by_cases ha : a = 0 <;> by_cases hb : b = 0
  · rw [if_pos ha, if_pos hb, if_pos (by omega), max_bot_l]
  · rw [if_pos ha, if_neg hb, if_neg (by omega), max_bot_l]
  · rw [if_neg ha, if_pos hb, if_neg (by omega), max_bot_r, max_comm]
  · rw [if_neg ha, if_neg hb, if_neg (by omega), max_comm ((0 : ℚ) : WithBot ℚ),
      max_assoc, max_self]

lemma set_append_add {α : Type} (l₁ l₂ : List α) (i : ℕ) (a : α) :
    (l₁ ++ l₂).set (l₁.length + i) a = l₁ ++ l₂.set i a := by
  induction l₁ with
  | nil => simp
  | cons x xs ih =>
      rw [List.cons_append, List.length_cons,
        show xs.length + 1 + i = (xs.length + i) + 1 from by omega]
      show x :: (xs ++ l₂).set (xs.length + i) a = x :: xs ++ l₂.set i a
      rw [ih, List.cons_append]

lemma set_append_len {α : Type} (l₁ l₂ : List α) (a : α) :
    (l₁ ++ l₂).set l₁.length a = l₁ ++ l₂.set 0 a := by
  have h := set_append_add l₁ l₂ 0 a
  rw [Nat.add_zero] at h
  exact h

/-- Trace of add_to_buffer calls threading the day list and replay memory,
collecting each call's result. -/
def runAdd : List ℚ → ReplayMemory (Transition (List ℚ) (List ℚ)) → List BufInput → List AddResult
  | _, _, [] => []
  | dl, mem, inp :: tr =>
      let r := add_to_buffer dl mem inp
      r :: runAdd r.day_list r.memory tr

/-- Daily peaks as the amended claim describes them on the trace alone: the
values recorded since the last wrap to hour 1 are kept (zero-padded to the 24
day slots); a call at hour 1 emits the padded maximum of the previous day's
values before resetting, every other call records its consumption first and
emits the padded maximum including it. -/
def specPeaks : List ℚ → List BufInput → List ℚ
  | _, [] => []
  | vs, inp :: tr =>
      if hourOf inp = 1 then padMax vs :: specPeaks [inp.net] tr
      else padMax (vs ++ [inp.net]) :: specPeaks (vs ++ [inp.net]) tr

/-- Daily peaks as the original claim words them: the running maximum of the
net-consumption values recorded since the last wrap to hour 1, where the
tracker resets exactly at hour 1 and every call's peak includes the current
step's consumption. -/
def claimPeaks : List ℚ → List BufInput → List ℚ
  | _, [] => []
  | vs, inp :: tr =>
      let vs2 := if hourOf inp = 1 then [inp.net] else vs ++ [inp.net]
      pyMax vs2 :: claimPeaks vs2 tr

/-- Check that a trace carries integer hour observations advancing cyclically
by one from the expected hour e (24 wraps to 1). -/
def hoursOkN : ℕ → List BufInput → Bool
  | _, [] => true
  | e, inp :: tr => hourOf inp == (e : ℤ) && hoursOkN (e % 24 + 1) tr

lemma add_to_buffer_peak (dl : List ℚ) (mem : ReplayMemory (Transition (List ℚ) (List ℚ)))
    (inp : BufInput) :
    (add_to_buffer dl mem inp).max_peak = (peakStep inp.net dl (hourOf inp - 1)).2 ∧
    (add_to_buffer dl mem inp).day_list = (peakStep inp.net dl (hourOf inp - 1)).1 :=
  ⟨rfl, rfl⟩

/-- Invariant of the daily-peak tracker along a trace of consecutive hourly
calls: the day list holds the values recorded since the last wrap at their hour
slots (zeros elsewhere), and the emitted peaks are the amended-claim peaks. -/
lemma runAdd_peaks_spec : ∀ (ins : List BufInput) (hs : ℕ) (vs : List ℚ)
    (mem : ReplayMemory (Transition (List ℚ) (List ℚ))),
    1 ≤ hs → hs + vs.length ≤ 25 →
    hoursOkN ((hs + vs.length - 1) % 24 + 1) ins = true →
    (runAdd (List.replicate (hs - 1) 0 ++ vs ++ List.replicate (25 - hs - vs.length) 0)
        mem ins).map AddResult.max_peak = specPeaks vs ins := by
  intro ins
  induction ins with
  | nil => intro hs vs mem _ _ _; rfl
  | cons inp tr ih =>
      intro hs vs mem h1 h2 hh
      rw [hoursOkN, Bool.and_eq_true, beq_iff_eq] at hh
      obtain ⟨hhour, htr⟩ := hh
      rw [runAdd, specPeaks.eq_def]
      simp only [List.map_cons]
      have hpk := add_to_buffer_peak
        (List.replicate (hs - 1) 0 ++ vs ++ List.replicate (25 - hs - vs.length) 0) mem inp
      by_cases he : (hs + vs.length - 1) % 24 + 1 = 1
      · -- wrap call: the hour observation is 1
        have hhour1 : hourOf inp = 1 := by rw [hhour, he]; rfl
        have hidx0 : hourOf inp - 1 = 0 := by rw [hhour1]; rfl
        have hpeak : (add_to_buffer
            (List.replicate (hs - 1) 0 ++ vs ++ List.replicate (25 - hs - vs.length) 0)
            mem inp).max_peak = padMax vs := by
          rw [hpk.1, peakStep, hidx0, if_pos rfl]
          show pyMax (List.replicate (hs - 1) 0 ++ vs ++ List.replicate (25 - hs - vs.length) 0)
            = padMax vs
          rw [pyMax_zero_pad,
            show (hs - 1) + (25 - hs - vs.length) = 24 - vs.length from by omega]
          rfl
        have hdl : (add_to_buffer
            (List.replicate (hs - 1) 0 ++ vs ++ List.replicate (25 - hs - vs.length) 0)
            mem inp).day_list
            = List.replicate (1 - 1) 0 ++ [inp.net] ++ List.replicate (25 - 1 - 1) 0 := by
          rw [hpk.2, peakStep, hidx0, if_pos rfl]
          rfl
        rw [hpeak, hdl, if_pos hhour1]
        congr 1
        apply ih 1 [inp.net] _ (by omega) (by simp)
        rw [he] at htr
        simpa using htr
      · -- ordinary call: the hour observation is the segment start plus count
        have he2 : (hs + vs.length - 1) % 24 + 1 = hs + vs.length ∧ hs + vs.length ≤ 24 := by
          omega
        have hhour2 : hourOf inp = ((hs + vs.length : ℕ) : ℤ) := by
          rw [hhour, he2.1]
        have hhourne : hourOf inp ≠ 1 := by
          rw [hhour2]; intro hcon; omega
        have hidxne : hourOf inp - 1 ≠ 0 := by
          rw [hhour2]; intro hcon; omega
        have hidxnn : 0 ≤ hourOf inp - 1 := by rw [hhour2]; omega
        have hidxnat : (hourOf inp - 1).toNat = (hs - 1) + vs.length := by
          rw [hhour2]; omega
        have hrep : (25 - hs - vs.length) = (24 - hs - vs.length) + 1 := by omega
        have hset : pyListSet
            (List.replicate (hs - 1) 0 ++ vs ++ List.replicate (25 - hs - vs.length) 0)
            (hourOf inp - 1) inp.net
            = List.replicate (hs - 1) 0 ++ (vs ++ [inp.net])
              ++ List.replicate (25 - hs - (vs ++ [inp.net]).length) 0 := by
          rw [pyListSet, if_pos hidxnn, hidxnat]
          rw [List.append_assoc]
          rw [show (hs - 1) + vs.length = (List.replicate (hs - 1) (0 : ℚ)).length + vs.length
            from by rw [List.length_replicate]]
          rw [set_append_add, set_append_len]
          rw [hrep, List.replicate_succ, List.set_cons_zero]
          rw [List.length_append, List.length_singleton]
          rw [show 25 - hs - (vs.length + 1) = 24 - hs - vs.length from by omega]
          simp
        have hpeak : (add_to_buffer
            (List.replicate (hs - 1) 0 ++ vs ++ List.replicate (25 - hs - vs.length) 0)
            mem inp).max_peak = padMax (vs ++ [inp.net]) := by
          rw [hpk.1, peakStep, if_neg hidxne]
          dsimp only
          rw [hset, pyMax_zero_pad,
            show (hs - 1) + (25 - hs - (vs ++ [inp.net]).length) = 24 - (vs ++ [inp.net]).length
              from by rw [List.length_append, List.length_singleton]; omega]
          rfl
        have hdl : (add_to_buffer
            (List.replicate (hs - 1) 0 ++ vs ++ List.replicate (25 - hs - vs.length) 0)
            mem inp).day_list
            = List.replicate (hs - 1) 0 ++ (vs ++ [inp.net])
              ++ List.replicate (25 - hs - (vs ++ [inp.net]).length) 0 := by
          rw [hpk.2, peakStep, if_neg hidxne]
          dsimp only
          rw [hset]
        rw [hpeak, hdl, if_neg hhourne]
        congr 1
        apply ih hs (vs ++ [inp.net]) _ h1 (by simp; omega)
        have hlen1 : (hs + (vs ++ [inp.net]).length - 1) = hs + vs.length := by
          rw [List.length_append, List.length_singleton]; omega
        rw [hlen1, ← he2.1]
        simpa using htr

/-- C2 (amended): along any sequence of add_to_buffer calls whose hour
observations advance cyclically by one within 1..24, the daily-peak value used
in the shaped reward is the maximum of the day list, i.e. the padded maximum
of the net-consumption values recorded since the last wrap to hour 1 (with 0
standing in for the hours of the day not yet recorded); at a call whose hour
is 1 that maximum is taken over the previous day's values, before the reset
and before the current step's consumption is recorded, while at every other
call it includes the current step's consumption. -/
theorem C2_daily_peak_amended (ins : List BufInput) (h0 : ℕ) (h1 : 1 ≤ h0) (h2 : h0 ≤ 24)
    (hh : hoursOkN h0 ins = true) (mem : ReplayMemory (Transition (List ℚ) (List ℚ))) :
    (runAdd (List.replicate 24 0) mem ins).map AddResult.max_peak = specPeaks [] ins := by
  have hdl : List.replicate (h0 - 1) (0 : ℚ) ++ ([] : List ℚ) ++ List.replicate (25 - h0) 0
      = List.replicate 24 0 := by
    rw [List.append_nil, ← List.replicate_add, show (h0 - 1) + (25 - h0) = 24 from by omega]
  rw [← hdl]
  exact runAdd_peaks_spec ins h0 [] mem h1
    (by simp only [List.length_nil, Nat.add_zero]; omega)
    (by simp only [List.length_nil, Nat.add_zero]
        rw [show (h0 - 1) % 24 + 1 = h0 from by omega]
        exact hh)

/-- Concrete two-call trace at hours 24 and 1 with net consumptions 10 and 20,
starting from a fresh agent. -/
def cexTrace : List BufInput :=
  [⟨[0, 0, 24], [], 0, [], false, 10⟩, ⟨[0, 0, 1], [], 0, [], false, 20⟩]

/-- C2 counterexample: on the trace at hours 24 then 1 with net consumptions
10 then 20, the hour-1 call uses daily peak 10 (the previous day's maximum),
not 20 as the claim's running maximum including the current step would give. -/
theorem C2_daily_peak_counterexample :
    hoursOkN 24 cexTrace = true ∧
    (runAdd (List.replicate 24 0) (ReplayMemory.init (Transition (List ℚ) (List ℚ)) 2000000)
        cexTrace).map AddResult.max_peak ≠ claimPeaks [] cexTrace := by
  refine ⟨by decide, by decide⟩

/-- C2 witness: the amended description evaluated on the concrete two-call
trace at hours 24 and 1. -/
theorem C2_daily_peak_amended_witness :
    (runAdd (List.replicate 24 0) (ReplayMemory.init (Transition (List ℚ) (List ℚ)) 2000000)
        cexTrace).map AddResult.max_peak = specPeaks [] cexTrace :=
  C2_daily_peak_amended cexTrace 24 (by decide) (by decide) (by decide) _

/-- C3 witness: pushing three rationals into a capacity-2 ring leaves length 2,
cursor 1, and exactly the two most recent values in order. -/
theorem C3_replay_ring_semantics_witness :
    0 < 2 ∧
    (((ReplayMemory.init ℚ 2).pushAll [1, 2, 3]).buffer.length = min ([1, 2, 3] : List ℚ).length 2 ∧
     ((ReplayMemory.init ℚ 2).pushAll [1, 2, 3]).position = ([1, 2, 3] : List ℚ).length % 2 ∧
     ((ReplayMemory.init ℚ 2).pushAll [1, 2, 3]).stored
       = ([1, 2, 3] : List ℚ).drop (([1, 2, 3] : List ℚ).length - 2)) :=
  ⟨by decide, C3_replay_ring_semantics 2 (by decide) [1, 2, 3]⟩

/-- Battery state of a connected EV at the current time step: capacity in kWh
and state of charge in kWh. -/
structure EVBattery where
  capacity : ℚ
  soc : ℚ
deriving DecidableEq

/-- Modelled from the spec: Battery.charge of citylearn/energy_model.py is not
under src; per the data model it mutates the SoC by the given signed energy,
re-clipping to the physical bounds zero and capacity. -/
def EVBattery.charge (b : EVBattery) (energy : ℚ) : EVBattery :=
  if 0 ≤ energy then { b with soc := min (b.soc + energy) b.capacity }
  else { b with soc := max (b.soc + energy) 0 }

/-- Charger attributes read by update_connected_ev_soc. -/
structure Charger where
  max_charging_power : ℚ
  max_discharging_power : ℚ
  efficiency : ℚ
deriving DecidableEq

/-- Embedding of the energy computation inside Charger.update_connected_ev_soc
for a connected EV and nonzero action: the signed conversion of the action,
then the charge clamp against remaining capacity when the energy is
nonnegative, or the discharge clamp against the 10 percent floor otherwise. -/
def Charger.energyForAction (c : Charger) (b : EVBattery) (action_value : ℚ) : ℚ :=
  let energy := if 0 < action_value then action_value * c.max_charging_power
                else action_value * c.max_discharging_power
  if 0 ≤ energy then
    min energy (b.capacity - b.soc)
  else
    max energy (-(b.soc - (1/10) * b.capacity))

/-- Embedding of Charger.update_connected_ev_soc: with a connected EV and a
nonzero action the clamped energy is scaled by the charger efficiency and
passed to the battery's charge method; otherwise nothing is transferred.
Returns the updated battery and the energy in kWh handed to it. -/
def Charger.update_connected_ev_soc (c : Charger) (connected : Bool) (b : EVBattery)
    (action_value : ℚ) : EVBattery × ℚ :=
  if connected = true ∧ action_value ≠ 0 then
    let energy_kwh := c.energyForAction b action_value * c.efficiency
    (b.charge energy_kwh, energy_kwh)
  else (b, 0)

/-- C5: for a connected EV and nonzero action the signed energy is clamped,
before efficiency scaling, to min(energy, capacity - soc) when charging and to
max(energy, -(soc - 0.10*capacity)) when discharging; in particular a +10 kWh
charge request against capacity 50 kWh at SoC 48 kWh applies at most 2 kWh. -/
theorem C5_charger_energy_clamp (c : Charger) (b : EVBattery) (action_value : ℚ)
    (ha : action_value ≠ 0) :
    ((0 ≤ (if 0 < action_value then action_value * c.max_charging_power
           else action_value * c.max_discharging_power) →
        c.energyForAction b action_value
          = min (if 0 < action_value then action_value * c.max_charging_power
                 else action_value * c.max_discharging_power) (b.capacity - b.soc)) ∧
     ((if 0 < action_value then action_value * c.max_charging_power
       else action_value * c.max_discharging_power) < 0 →
        c.energyForAction b action_value
          = max (if 0 < action_value then action_value * c.max_charging_power
                 else action_value * c.max_discharging_power)
              (-(b.soc - (1/10) * b.capacity)))) ∧
    (c.update_connected_ev_soc true b action_value).2
      = c.energyForAction b action_value * c.efficiency ∧
    Charger.energyForAction ⟨50, 50, 1⟩ ⟨50, 48⟩ (1/5) ≤ 2 := by
  refine ⟨⟨?_, ?_⟩, ?_, by norm_num [Charger.energyForAction]⟩
  · intro hnn
    rw [Charger.energyForAction]
    rw [if_pos hnn]
  · intro hneg
    rw [Charger.energyForAction]
    rw [if_neg (by exact not_le.2 hneg)]
  · rw [Charger.update_connected_ev_soc, if_pos ⟨rfl, ha⟩]

/-- C5 witness: the clamps evaluated at the concrete instance of the claim,
action 0.2 on a 50 kW charger (a 10 kWh request) against a 50 kWh battery at
48 kWh. -/
theorem C5_charger_energy_clamp_witness :
    ((0 ≤ (if 0 < (1/5 : ℚ) then (1/5 : ℚ) * (50 : ℚ) else (1/5 : ℚ) * (50 : ℚ)) →
        Charger.energyForAction ⟨50, 50, 1⟩ ⟨50, 48⟩ (1/5)
          = min (if 0 < (1/5 : ℚ) then (1/5 : ℚ) * (50 : ℚ) else (1/5 : ℚ) * (50 : ℚ))
              ((50 : ℚ) - 48)) ∧
     ((if 0 < (1/5 : ℚ) then (1/5 : ℚ) * (50 : ℚ) else (1/5 : ℚ) * (50 : ℚ)) < 0 →
        Charger.energyForAction ⟨50, 50, 1⟩ ⟨50, 48⟩ (1/5)
          = max (if 0 < (1/5 : ℚ) then (1/5 : ℚ) * (50 : ℚ) else (1/5 : ℚ) * (50 : ℚ))
              (-((48 : ℚ) - (1/10) * 50)))) ∧
    (Charger.update_connected_ev_soc ⟨50, 50, 1⟩ true ⟨50, 48⟩ (1/5)).2
      = Charger.energyForAction ⟨50, 50, 1⟩ ⟨50, 48⟩ (1/5) * (1 : ℚ) ∧
    Charger.energyForAction ⟨50, 50, 1⟩ ⟨50, 48⟩ (1/5) ≤ 2 :=
  C5_charger_energy_clamp ⟨50, 50, 1⟩ ⟨50, 48⟩ (1/5) (by norm_num)

/-- C10: with a connected EV, a negative action, positive discharging power and
efficiency, and SoC strictly below 10 percent of capacity, the discharge clamp
returns the strictly positive value -(soc - 0.10*capacity), so the step
charges the battery by that amount times efficiency and the SoC strictly
increases instead of the request being refused or zeroed. -/
theorem C10_discharge_below_floor_charges (c : Charger) (b : EVBattery) (action_value : ℚ)
    (ha : action_value < 0) (hdis : 0 < c.max_discharging_power)
    (heff : 0 < c.efficiency) (hsoc0 : 0 ≤ b.soc)
    (hfloor : b.soc < (1/10) * b.capacity) :
    c.energyForAction b action_value = -(b.soc - (1/10) * b.capacity) ∧
    (c.update_connected_ev_soc true b action_value).2
      = -(b.soc - (1/10) * b.capacity) * c.efficiency ∧
    0 < (c.update_connected_ev_soc true b action_value).2 ∧
    b.soc < ((c.update_connected_ev_soc true b action_value).1).soc := by
  have henergy : action_value * c.max_discharging_power < 0 :=
    mul_neg_of_neg_of_pos ha hdis
  have hcap : 0 < b.capacity := by nlinarith
  have hfloorpos : 0 < -(b.soc - (1/10) * b.capacity) := by linarith
  have h1 : c.energyForAction b action_value = -(b.soc - (1/10) * b.capacity) := by
    have hin : ¬ 0 < action_value := not_lt.2 (le_of_lt ha)
    rw [Charger.energyForAction]
    rw [if_neg hin]
    have hout : ¬ 0 ≤ action_value * c.max_discharging_power := not_le.2 henergy
    rw [if_neg hout]
    exact max_eq_right (by linarith)
  have hupd : c.update_connected_ev_soc true b action_value
      = (b.charge (c.energyForAction b action_value * c.efficiency),
         c.energyForAction b action_value * c.efficiency) := by
    rw [Charger.update_connected_ev_soc, if_pos ⟨rfl, ne_of_lt ha⟩]
  have hkwh : 0 < c.energyForAction b action_value * c.efficiency := by
    rw [h1]; exact mul_pos hfloorpos heff
  refine ⟨h1, by rw [hupd, h1], by rw [hupd]; exact hkwh, ?_⟩
  rw [hupd]
  show b.soc < (b.charge (c.energyForAction b action_value * c.efficiency)).soc
  rw [EVBattery.charge, if_pos (le_of_lt hkwh)]
  show b.soc < min (b.soc + c.energyForAction b action_value * c.efficiency) b.capacity
  apply lt_min
  · linarith
  · linarith

/-- C10 witness: capacity 50 kWh at SoC 2 kWh (below the 5 kWh floor), action
-0.5 on a 50 kW charger with efficiency 1: the step applies +3 kWh and raises
the SoC from 2 to 5. -/
theorem C10_discharge_below_floor_charges_witness :
    Charger.energyForAction ⟨50, 50, 1⟩ ⟨50, 2⟩ (-(1/2))
      = -((2 : ℚ) - (1/10) * 50) ∧
    (Charger.update_connected_ev_soc ⟨50, 50, 1⟩ true ⟨50, 2⟩ (-(1/2))).2
      = -((2 : ℚ) - (1/10) * 50) * (1 : ℚ) ∧
    0 < (Charger.update_connected_ev_soc ⟨50, 50, 1⟩ true ⟨50, 2⟩ (-(1/2))).2 ∧
    (2 : ℚ) < ((Charger.update_connected_ev_soc ⟨50, 50, 1⟩ true ⟨50, 2⟩ (-(1/2))).1).soc :=
  C10_discharge_below_floor_charges ⟨50, 50, 1⟩ ⟨50, 2⟩ (-(1/2))
    (by norm_num) (by norm_num) (by norm_num) (by norm_num) (by norm_num)

/-- Modelled from the spec: the Battery fields read and written by
electric_vehicle.adjust_ev_soc_on_system_connection live in
citylearn/energy_model.py, which is not under src.  Per the spec sentence for
this method, initial_soc is the battery's SoC in kWh immediately prior to the
adjustment at the current time step, and set_ad_hoc_charge applies the signed
energy as a direct SoC change, not metered through the charger's efficiency
and limits path. -/
structure AdjBattery where
  capacity : ℚ
  initial_soc : ℚ
deriving DecidableEq

/-- Modelled from the spec: ad-hoc charge adjustment, a direct SoC change by
the given signed energy. -/
def AdjBattery.set_ad_hoc_charge (b : AdjBattery) (energy : ℚ) : AdjBattery :=
  { b with initial_soc := b.initial_soc + energy }

/-- Result of one adjust_ev_soc_on_system_connection call: both adjusted
batteries, the clipped variation, the final targets in kWh, and the signed
energies handed to each battery's ad-hoc charge adjustment. -/
structure AdjResult where
  battery : AdjBattery
  aux_battery : AdjBattery
  variation_percentage : ℚ
  soc_final_kwh : ℚ
  aux_soc_final_kwh : ℚ
  charge_main : ℚ
  charge_aux : ℚ
deriving DecidableEq

/-- Embedding of electric_vehicle.adjust_ev_soc_on_system_connection: read both
prior SoCs, convert the predicted SoC percentage to kWh per battery, clip one
Normal(0, 0.1) draw into the interval from -0.2 to 0.2, apply it as a common
fractional perturbation of both targets, and pass the signed deltas to the
batteries' ad-hoc charge adjustments. -/
def adjust_ev_soc_on_system_connection (battery aux_battery : AdjBattery)
    (soc_system_connection : ℚ) (draw : ℚ) : AdjResult :=
  let soc_init_kwh := battery.initial_soc
  let aux_soc_init_kwh := aux_battery.initial_soc
  let soc_system_connection_kwh := battery.capacity * (soc_system_connection / 100)
  let aux_soc_system_connection_kwh := aux_battery.capacity * (soc_system_connection / 100)
  let variation_percentage := npClip draw (-(1/5)) (1/5)
  let variation_kwh := variation_percentage * soc_system_connection_kwh
  let aux_variation_kwh := variation_percentage * aux_soc_system_connection_kwh
  let soc_final_kwh := soc_system_connection_kwh + variation_kwh
  let aux_soc_final_kwh := aux_soc_system_connection_kwh + aux_variation_kwh
  { battery := battery.set_ad_hoc_charge (soc_final_kwh - soc_init_kwh)
    aux_battery := aux_battery.set_ad_hoc_charge (aux_soc_final_kwh - aux_soc_init_kwh)
    variation_percentage := variation_percentage
    soc_final_kwh := soc_final_kwh
    aux_soc_final_kwh := aux_soc_final_kwh
    charge_main := soc_final_kwh - soc_init_kwh
    charge_aux := aux_soc_final_kwh - aux_soc_init_kwh }

/-- C7: the energy passed to each battery's ad-hoc charge adjustment equals the
final perturbed target SoC in kWh minus that battery's SoC immediately prior
to the adjustment, so each battery lands exactly at its perturbed target. -/
theorem C7_adjustment_delta (battery aux_battery : AdjBattery)
    (soc_system_connection draw : ℚ) :
    (adjust_ev_soc_on_system_connection battery aux_battery soc_system_connection draw).charge_main
      = (adjust_ev_soc_on_system_connection battery aux_battery soc_system_connection
          draw).soc_final_kwh - battery.initial_soc ∧
    (adjust_ev_soc_on_system_connection battery aux_battery soc_system_connection draw).charge_aux
      = (adjust_ev_soc_on_system_connection battery aux_battery soc_system_connection
          draw).aux_soc_final_kwh - aux_battery.initial_soc ∧
    ((adjust_ev_soc_on_system_connection battery aux_battery soc_system_connection
        draw).battery).initial_soc
      = (adjust_ev_soc_on_system_connection battery aux_battery soc_system_connection
          draw).soc_final_kwh ∧
    ((adjust_ev_soc_on_system_connection battery aux_battery soc_system_connection
        draw).aux_battery).initial_soc
      = (adjust_ev_soc_on_system_connection battery aux_battery soc_system_connection
          draw).aux_soc_final_kwh := by
  refine ⟨rfl, rfl, ?_, ?_⟩
  · simp only [adjust_ev_soc_on_system_connection, AdjBattery.set_ad_hoc_charge]
    ring
  · simp only [adjust_ev_soc_on_system_connection, AdjBattery.set_ad_hoc_charge]
    ring

lemma npClip_bounds (x lo hi : ℚ) (h : lo ≤ hi) :
    lo ≤ npClip x lo hi ∧ npClip x lo hi ≤ hi := by
  unfold npClip
  split_ifs with h1 h2
  · exact ⟨le_refl lo, h⟩
  · exact ⟨h, le_refl hi⟩
  · exact ⟨le_of_not_lt h1, le_of_not_lt h2⟩

/-- C8: for every value of the random draw the clipped fractional perturbation
lies within -0.2 to 0.2 and is applied identically to both batteries' targets:
each final target is (1 + v) times capacity times the common predicted SoC
percentage over 100, so the finals stand in the ratio of the capacity-scaled
targets. -/
theorem C8_variation_clip_and_ratio (battery aux_battery : AdjBattery)
    (soc_system_connection draw : ℚ) :
    (-(1/5) ≤ (adjust_ev_soc_on_system_connection battery aux_battery soc_system_connection
        draw).variation_percentage ∧
      (adjust_ev_soc_on_system_connection battery aux_battery soc_system_connection
        draw).variation_percentage ≤ 1/5) ∧
    (adjust_ev_soc_on_system_connection battery aux_battery soc_system_connection
        draw).soc_final_kwh
      = (1 + (adjust_ev_soc_on_system_connection battery aux_battery soc_system_connection
          draw).variation_percentage) * (battery.capacity * (soc_system_connection / 100)) ∧
    (adjust_ev_soc_on_system_connection battery aux_battery soc_system_connection
        draw).aux_soc_final_kwh
      = (1 + (adjust_ev_soc_on_system_connection battery aux_battery soc_system_connection
          draw).variation_percentage) * (aux_battery.capacity * (soc_system_connection / 100)) ∧
    (adjust_ev_soc_on_system_connection battery aux_battery soc_system_connection
        draw).soc_final_kwh * (aux_battery.capacity * (soc_system_connection / 100))
      = (adjust_ev_soc_on_system_connection battery aux_battery soc_system_connection
          draw).aux_soc_final_kwh * (battery.capacity * (soc_system_connection / 100)) := by
  refine ⟨npClip_bounds draw (-(1/5)) (1/5) (by norm_num), ?_, ?_, ?_⟩
  · simp only [adjust_ev_soc_on_system_connection]
    ring
  · simp only [adjust_ev_soc_on_system_connection]
    ring
  · simp only [adjust_ev_soc_on_system_connection]
    ring

/-- Embedding of soft_update of agent_SAC.py: each target parameter becomes
target times (1 - tau) plus source times tau. -/
def soft_update (target source : List ℚ) (tau : ℚ) : List ℚ :=
  List.zipWith (fun target_param param => target_param * (1 - tau) + param * tau) target source

/-- Embedding of hard_update of agent_SAC.py: each target parameter is
overwritten by the corresponding source parameter. -/
def hard_update (target source : List ℚ) : List ℚ :=
  List.zipWith (fun _ param => param) target source

/-- Critic parameter slice of the SAC learner state. -/
structure SACNets where
  critic : List ℚ
  critic_target : List ℚ
deriving DecidableEq

/-- Embedding of the critic construction slice of SAC.__init__: the critic
target is created and immediately hard-updated from the critic. -/
def SAC_initCritic (critic_init critic_target_init : List ℚ) : SACNets :=
  { critic := critic_init
    critic_target := hard_update critic_target_init critic_init }

lemma zipWith_snd_eq (t s : List ℚ) (h : t.length = s.length) :
    List.zipWith (fun _ param => param) t s = s := by
  induction t generalizing s with
  | nil =>
      cases s with
      | nil => rfl
      | cons b bs => simp at h
  | cons a t ih =>
      cases s with
      | nil => simp at h
      | cons b bs =>
          show b :: List.zipWith (fun _ param => param) t bs = b :: bs
          rw [ih bs (by simpa using h)]

/-- C9: after construction the target critic parameters equal the critic
parameters exactly (hard update), and a soft update with coefficient tau moves
every target parameter t to t + tau * (source - t); with tau = 0.003 the move
is exactly 0.003 times (source minus old target). -/
theorem C9_target_network_updates (critic_init critic_target_init : List ℚ)
    (hinit : critic_target_init.length = critic_init.length)
    (target source : List ℚ) (hlen : target.length = source.length)
    (i : ℕ) (hi : i < target.length) :
    (SAC_initCritic critic_init critic_target_init).critic_target
      = (SAC_initCritic critic_init critic_target_init).critic ∧
    (∀ tau : ℚ, (soft_update target source tau).getD i 0
      = target.getD i 0 + tau * (source.getD i 0 - target.getD i 0)) ∧
    (soft_update target source (3/1000)).getD i 0 - target.getD i 0
      = (3/1000) * (source.getD i 0 - target.getD i 0) := by
  have hstep : ∀ tau : ℚ, (soft_update target source tau).getD i 0
      = target.getD i 0 + tau * (source.getD i 0 - target.getD i 0) := by
    intro tau
    have hzi : i < (soft_update target source tau).length := by
      rw [soft_update, List.length_zipWith, hlen, Nat.min_self, ← hlen]
      exact hi
    have his : i < source.length := by rw [← hlen]; exact hi
    rw [List.getD_eq_getElem _ _ hzi, List.getD_eq_getElem _ _ hi,
      List.getD_eq_getElem _ _ his]
    simp only [soft_update, List.getElem_zipWith]
    ring
  refine ⟨?_, hstep, ?_⟩
  · show hard_update critic_target_init critic_init = critic_init
    rw [hard_update, zipWith_snd_eq _ _ hinit]
  · rw [hstep (3/1000)]
    ring

/-- C9 witness: a concrete hard update makes the target equal the critic, and
a soft update with tau 0.003 on parameters 4 (target) and 8 (source) moves the
target by exactly 0.003 times 4. -/
theorem C9_target_network_updates_witness :
    (SAC_initCritic [1, 2] [0, 0]).critic_target = (SAC_initCritic [1, 2] [0, 0]).critic ∧
    (∀ tau : ℚ, (soft_update [4] [8] tau).getD 0 0
      = ([4] : List ℚ).getD 0 0 + tau * (([8] : List ℚ).getD 0 0 - ([4] : List ℚ).getD 0 0)) ∧
    (soft_update [4] [8] (3/1000)).getD 0 0 - ([4] : List ℚ).getD 0 0
      = (3/1000) * (([8] : List ℚ).getD 0 0 - ([4] : List ℚ).getD 0 0) :=
  C9_target_network_updates [1, 2] [0, 0] (by decide) [4] [8] (by decide) 0 (by decide)

/-- Affine rescale slope of the policy networks: (high - low) / 2. -/
noncomputable def actionScale (low high : ℝ) : ℝ := (high - low) / 2

/-- Affine rescale offset of the policy networks: (high + low) / 2. -/
noncomputable def actionBias (low high : ℝ) : ℝ := (high + low) / 2

/-- Embedding of the action produced by GaussianPolicy.sample: the
reparameterized pre-squash draw x_t (and, in evaluation mode, the raw mean) is
squashed by tanh and affinely rescaled. -/
noncomputable def squashedAction (x_t scale bias : ℝ) : ℝ :=
  Real.tanh x_t * scale + bias

/-- Embedding of the action produced by DeterministicPolicy.sample: the
squashed and rescaled mean plus the Gaussian noise clamped to the interval
from -0.25 to 0.25. -/
noncomputable def detSampleAction (x noise scale bias : ℝ) : ℝ :=
  (Real.tanh x * scale + bias) + min (max noise (-(1/4 : ℝ))) (1/4)

lemma tanh_lt_one (x : ℝ) : Real.tanh x < 1 := by
  rw [Real.tanh_eq_sinh_div_cosh, div_lt_one (Real.cosh_pos x)]
  exact Real.sinh_lt_cosh x

lemma neg_one_lt_tanh (x : ℝ) : -1 < Real.tanh x := by
  rw [Real.tanh_eq_sinh_div_cosh, lt_div_iff₀ (Real.cosh_pos x)]
  have h := Real.cosh_add_sinh x
  have h2 := Real.exp_pos x
  nlinarith

/-- C6 counterexample: on the action space from -0.1 to 0.1, the deterministic
policy at squashed mean 0 with a noise draw of 0.5 (clamped to 0.25) returns
0.25, which exceeds the upper bound 0.1. -/
theorem C6_policy_bounds_counterexample :
    detSampleAction 0 (1/2) (actionScale (-(1/10)) (1/10)) (actionBias (-(1/10)) (1/10))
      > (1/10 : ℝ) := by
  unfold detSampleAction actionScale actionBias
  rw [Real.tanh_zero]
  norm_num [max_def, min_def]

/-- C6 (amended): the Gaussian policy's sampled (and evaluation-mode) action
always lies within the declared action bounds low and high, via the tanh
squash and the affine rescale; the deterministic variant, which adds noise
clamped to the interval from -0.25 to 0.25 after the squash and rescale, is
only guaranteed to lie within low - 0.25 and high + 0.25 and can leave the
declared bounds. -/
theorem C6_policy_action_bounds (x noise low high : ℝ) (h : low ≤ high) :
    (low ≤ squashedAction x (actionScale low high) (actionBias low high) ∧
     squashedAction x (actionScale low high) (actionBias low high) ≤ high) ∧
    (low - 1/4 ≤ detSampleAction x noise (actionScale low high) (actionBias low high) ∧
     detSampleAction x noise (actionScale low high) (actionBias low high) ≤ high + 1/4) := by
  have h1 := tanh_lt_one x
  have h2 := neg_one_lt_tanh x
  have hs : 0 ≤ (high - low) / 2 := by linarith
  have hub : Real.tanh x * ((high - low) / 2) ≤ (high - low) / 2 := by nlinarith
  have hlb : -((high - low) / 2) ≤ Real.tanh x * ((high - low) / 2) := by nlinarith
  have hclamp1 : -(1/4 : ℝ) ≤ min (max noise (-(1/4 : ℝ))) (1/4) :=
    le_min (le_max_right _ _) (by norm_num)
  have hclamp2 : min (max noise (-(1/4 : ℝ))) (1/4) ≤ 1/4 := min_le_right _ _
  unfold squashedAction detSampleAction actionScale actionBias
  refine ⟨⟨by linarith, by linarith⟩, ⟨by linarith, by linarith⟩⟩

/-- C6 witness: the amended bounds evaluated on the unit action space at
squash input 0 and noise 0. -/
theorem C6_policy_action_bounds_witness :
    ((-1 : ℝ) ≤ squashedAction 0 (actionScale (-1) 1) (actionBias (-1) 1) ∧
     squashedAction 0 (actionScale (-1) 1) (actionBias (-1) 1) ≤ 1) ∧
    ((-1 : ℝ) - 1/4 ≤ detSampleAction 0 0 (actionScale (-1) 1) (actionBias (-1) 1) ∧
     detSampleAction 0 0 (actionScale (-1) 1) (actionBias (-1) 1) ≤ 1 + 1/4) :=
  C6_policy_action_bounds 0 0 (-1) 1 (by norm_num)
